import Mathlib

/-!
Shallow embedding of the bifx pipeline core (data loader, feature engine,
index calculator, backtest) with exact rational arithmetic in place of
IEEE floats.  A pandas column is a `List (Option ℚ)`: `none` is NaN, the
list position is the date.  A DataFrame is a list of named columns sharing
one row count.
-/

namespace Bifx

/-- A pandas Series column: position = date, `none` = NaN. -/
abbrev Col := List (Option ℚ)

/-- A pandas DataFrame: named columns over a shared date index. -/
abbrev Frame := List (String × Col)

/-- `series.dropna()`: the valid (non-NaN) values of a column, in order. -/
def validVals (c : Col) : List ℚ := c.filterMap id

/-- Arithmetic mean of a list of rationals (0 on empty, as a total stub
for a case the callers never reach). -/
def meanQ (xs : List ℚ) : ℚ := xs.sum / xs.length

/-- Sum of squared deviations from the mean.  Over exact arithmetic,
pandas `std() == 0` (sample std, ddof=1, defined only when at least two
valid values exist) holds iff this sum is zero. -/
def ssd (xs : List ℚ) : ℚ := (xs.map (fun x => (x - meanQ xs) ^ 2)).sum

/-- `feature_df[col].std() == 0`: pandas sample std is NaN when fewer than
2 valid values exist (a NaN compares unequal to 0), and equals 0 iff all
valid values coincide, i.e. the sum of squared deviations is 0. -/
def stdIsZero (c : Col) : Bool :=
  decide (2 ≤ (validVals c).length) && decide (ssd (validVals c) = 0)

/-- `feature_df[col].isna().all()`. -/
def isAllNaN (c : Col) : Bool := (validVals c).isEmpty

/-- Insert into a sorted list (ascending). -/
def insertSorted (x : ℚ) : List ℚ → List ℚ
  | [] => [x]
  | y :: ys => if x ≤ y then x :: y :: ys else y :: insertSorted x ys

/-- Sort ascending (insertion sort). -/
def sortQ (l : List ℚ) : List ℚ := l.foldr insertSorted []

/-- `series.quantile(q)` with pandas' default linear interpolation: on the
sorted valid values `v_0 … v_{n-1}`, with `h = q*(n-1)`, the result is
`v_⌊h⌋ + (h - ⌊h⌋) * (v_{⌊h⌋+1} - v_⌊h⌋)`. -/
def quantileQ (xs : List ℚ) (q : ℚ) : ℚ :=
  let s := sortQ xs
  if s.isEmpty then 0
  else
    let h : ℚ := q * ((s.length : ℚ) - 1)
    let k : ℕ := h.floor.toNat
    let lo := s.getD k 0
    let hi := s.getD (k + 1) lo
    lo + (h - (k : ℚ)) * (hi - lo)

/-- `v.clip(lo, hi)` on one value: lower bound applied, then upper. -/
def clipQ (v lo hi : ℚ) : ℚ := min (max v lo) hi

/-- `series.clip(lo, hi)`: NaN entries stay NaN. -/
def clipSeries (s : Col) (lo hi : ℚ) : Col :=
  s.map (Option.map (fun v => clipQ v lo hi))

/-- `IndexConfig` from `config.py` (defaults as in `__post_init__`). -/
structure IndexConfig where
  normalization_method : String := "zscore_minmax"
  min_value : ℚ := 0
  max_value : ℚ := 100
  ema_span : ℕ := 5
  default_weights : List (String × ℚ) :=
    [("realized_vol", 25/100), ("usdtry_shock", 20/100), ("cds_spike", 20/100),
     ("sentiment_trends", 15/100), ("vix_level", 10/100), ("correlation_breakdown", 10/100)]

/-- `_normalize_zscore_minmax` from `core/index_calculator.py`: drop NaN;
with fewer than 10 valid observations return the constant series 50.0 over
the whole index; otherwise scale by the 1st/99th percentiles of the valid
values (constant 50.0 again when they coincide), rescale to
[min_val, max_val] and clip. -/
def normalize_zscore_minmax (series : Col) (min_val max_val : ℚ) : Col :=
  let series_clean := validVals series
  if series_clean.length < 10 then series.map (fun _ => some 50)
  else
    let p01 := quantileQ series_clean (1/100)
    let p99 := quantileQ series_clean (99/100)
    if p99 = p01 then series.map (fun _ => some 50)
    else
      series.map (Option.map (fun v =>
        clipQ ((v - p01) / (p99 - p01) * (max_val - min_val) + min_val) min_val max_val))

/-- `_normalize_features`: skip a column whose std is 0 or which is all
NaN; normalize the rest. -/
def normalize_features (feature_df : Frame) (config : IndexConfig) : Frame :=
  feature_df.filterMap (fun c =>
    if stdIsZero c.2 || isAllNaN c.2 then none
    else some (c.1, normalize_zscore_minmax c.2 config.min_value config.max_value))

/-- `weights.get(col, 0.0)`. -/
def wlookup (w : List (String × ℚ)) (name : String) : ℚ := (w.lookup name).getD 0

/-- Value of column `c` at row `i` (`none` past the end; frames are used
with all columns of the index length). -/
def rowVal (c : Col) (i : ℕ) : Option ℚ := c.getD i none

/-- The `weighted_sum` accumulator of `_apply_weights` at row `i`: over the
columns in order, add `value * weight` when the weight is positive and the
value is present. -/
def rowWeightedSum (cols : Frame) (w : List (String × ℚ)) (i : ℕ) : ℚ :=
  cols.foldl (fun acc c =>
    if 0 < wlookup w c.1 then
      match rowVal c.2 i with
      | some v => acc + v * wlookup w c.1
      | none => acc
    else acc) 0

/-- The `weights_used` accumulator of `_apply_weights` at row `i`. -/
def rowWeightsUsed (cols : Frame) (w : List (String × ℚ)) (i : ℕ) : ℚ :=
  cols.foldl (fun acc c =>
    if 0 < wlookup w c.1 then
      match rowVal c.2 i with
      | some _ => acc + wlookup w c.1
      | none => acc
    else acc) 0

/-- `_apply_weights` over an index of `n` dates: per date,
`weighted_sum / weights_used`; a zero total weight gives `0.0/0.0 = NaN`
in floats (and any infinity is replaced by NaN), hence `none` here. -/
def apply_weights (normalized_df : Frame) (weights : List (String × ℚ)) (n : ℕ) : Col :=
  (List.range n).map (fun i =>
    let wu := rowWeightsUsed normalized_df weights i
    if wu = 0 then none else some (rowWeightedSum normalized_df weights i / wu))

/-- `alpha = 2 / (span + 1)` for `ewm(span=span)`. -/
def emaAlpha (span : ℕ) : ℚ := 2 / ((span : ℚ) + 1)

/-- One step of pandas `ewm(span, adjust=False).mean()` (ignore_na=False,
min_periods=0).  State: (current weighted average if any observation seen,
old weight).  A NaN input repeats the previous average and decays the old
weight; an observation gives `(old_wt*(1-α)*avg + α*cur)/(old_wt*(1-α)+α)`
and resets the old weight to 1. -/
def emaStep (α : ℚ) (st : Option ℚ × ℚ) (x : Option ℚ) : (Option ℚ × ℚ) × Option ℚ :=
  match st.1, x with
  | none, none => (st, none)
  | none, some v => ((some v, 1), some v)
  | some a, none => ((some a, st.2 * (1 - α)), some a)
  | some a, some v =>
    let ow := st.2 * (1 - α)
    let avg := if a = v then a else (ow * a + α * v) / (ow + α)
    ((some avg, 1), some avg)

/-- Run the EWM recurrence over a column. -/
def emaRun (α : ℚ) : Option ℚ × ℚ → Col → Col
  | _, [] => []
  | st, x :: xs =>
    let r := emaStep α st x
    r.2 :: emaRun α r.1 xs

/-- `_apply_ema_smoothing`. -/
def apply_ema_smoothing (series : Col) (span : ℕ) : Col :=
  emaRun (emaAlpha span) (none, 1) series

/-- `calculate_fear_index` over a frame whose date index has `n` rows:
empty input or all-columns-failed normalization give an empty result;
otherwise weights, EMA smoothing, final clip. -/
def calculate_fear_index (feature_df : Frame) (n : ℕ) (config : IndexConfig) : Col :=
  if feature_df.isEmpty || n = 0 then []
  else
    let normalized_df := normalize_features feature_df config
    if normalized_df.isEmpty then []
    else
      clipSeries
        (apply_ema_smoothing (apply_weights normalized_df config.default_weights n)
          config.ema_span)
        config.min_value config.max_value

/-! ### Backtest (`core/backtest.py`) -/

/-- `BacktestConfig` from `config.py`. -/
structure BacktestConfig where
  crash_threshold : ℚ := -2/100
  high_fear_threshold : ℚ := 70
  low_fear_threshold : ℚ := 30
  risk_free_rate : ℚ := 0

/-- The inner `calculate_exposure` of `_backtest_overlay_strategy`: zero
exposure strictly above the high threshold, full exposure strictly below
the low threshold, linear interpolation in between. -/
def calculate_exposure (config : BacktestConfig) (fear_level : ℚ) : ℚ :=
  if config.high_fear_threshold < fear_level then 0
  else if fear_level < config.low_fear_threshold then 1
  else
    let range_size := config.high_fear_threshold - config.low_fear_threshold
    1 - (fear_level - config.low_fear_threshold) / range_size

/-- `(merged_df["next_day_return"] < crash_threshold).astype(int)` on one
row: a strict comparison. -/
def crashLabel (crash_threshold : ℚ) (next_day_return : ℚ) : Bool :=
  decide (next_day_return < crash_threshold)

/-- Pairwise contribution of one (positive score, negative score) pair to
the Mann–Whitney statistic: 1 when the positive outranks the negative,
1/2 on a tie. -/
def aucPairScore (p q : ℚ) : ℚ := if q < p then 1 else if q = p then 1/2 else 0

/-- `sklearn.metrics.roc_auc_score(labels, scores)` in its rank
(Mann–Whitney) formulation over exact rationals: the fraction of
(positive, negative) pairs the score orders correctly, ties counting
half. -/
def roc_auc_score (labels : List Bool) (scores : List ℚ) : ℚ :=
  let pairs := labels.zip scores
  let pos := (pairs.filter (fun p => p.1)).map (fun p => p.2)
  let neg := (pairs.filter (fun p => !p.1)).map (fun p => p.2)
  ((pos.map (fun p => (neg.map (fun q => aucPairScore p q)).sum)).sum) /
    ((pos.length : ℚ) * (neg.length : ℚ))

/-- `_calculate_roc_auc` over the merged sample, given as the per-row
fear-index levels and next-day returns: label crash days, and return 0.0
outright when fewer than 2 crash days exist. -/
def calculate_roc_auc (fear_index next_day_return : List ℚ) (crash_threshold : ℚ) : ℚ :=
  let crash_day := next_day_return.map (crashLabel crash_threshold)
  if (crash_day.filter id).length < 2 then 0
  else roc_auc_score crash_day fear_index

/-! ### Feature engine (`core/feature_engine.py`) -/

/-- A raw time-series table: (date key, row of numeric values). -/
abbrev Table := List (ℕ × List ℚ)

/-- The Dataset Bundle: source name ↦ table. -/
abbrev Bundle := List (String × Table)

/-- A date-indexed series as returned by a feature unit. -/
abbrev Series := List (ℕ × ℚ)

/-- What invoking one feature module can do: return a pandas Series,
raise, return a non-Series value, or lack a `compute` function. -/
inductive FeatureOutcome where
  | ok (s : Series)
  | raises
  | nonSeries
  | noCompute
deriving DecidableEq

/-- A discovered feature unit: its module name and its behaviour on a
bundle. -/
structure FeatureUnit where
  name : String
  compute : Bundle → FeatureOutcome

/-- `_execute_feature`: a missing `compute`, a raised exception, and a
non-Series return are all caught and mapped to `None`. -/
def execute_feature (u : FeatureUnit) (data : Bundle) : Option Series :=
  match u.compute data with
  | .ok s => some s
  | .raises => none
  | .nonSeries => none
  | .noCompute => none

/-- `compute_all_features` restricted to what it contributes downstream:
the named columns of the resulting Feature Matrix, i.e. the series of the
units whose execution returned a non-`None`, non-empty result, in
discovery order. -/
def compute_all_features (units : List FeatureUnit) (data : Bundle) : List (String × Series) :=
  if units.isEmpty then []
  else
    units.filterMap (fun u =>
      match execute_feature u data with
      | some s => if s.isEmpty then none else some (u.name, s)
      | none => none)

/-! ### Data loader (`core/data_loader.py`) -/

/-- `DataSourceConfig` from `config.py`. -/
structure SourceConfig where
  name : String
  provider : String
  symbol : String
  enabled : Bool := true
deriving DecidableEq

/-- What the external world can answer to one adapter invocation: a table,
or one of the failure modes every adapter catches. -/
inductive FetchResult where
  | ok (t : Table)
  | netError
  | malformed
  | noCredential
  | noFile
deriving DecidableEq

/-- `r` is a failure outcome (everything but `ok`). -/
def FetchResult.isFailure : FetchResult → Bool
  | .ok _ => false
  | _ => true

/-- `_load_from_yfinance`: any raised error is caught and an empty frame
returned; an empty provider result is returned as-is (empty). -/
def load_from_yfinance : FetchResult → Table
  | .ok t => t
  | _ => []

/-- `_load_from_alphavantage`: a missing API key, an invalid response and
a raised error all give an empty frame. -/
def load_from_alphavantage : FetchResult → Table
  | .ok t => t
  | _ => []

/-- `_load_from_ccxt`: no data or a raised error gives an empty frame. -/
def load_from_ccxt : FetchResult → Table
  | .ok t => t
  | _ => []

/-- `_load_manual_csv`: a missing file or a read error gives an empty
frame. -/
def load_manual_csv : FetchResult → Table
  | .ok t => t
  | _ => []

/-- `_load_from_pytrends`: a raised error gives an empty frame. -/
def load_from_pytrends : FetchResult → Table
  | .ok t => t
  | _ => []

/-- A cache entry: age in whole days and the stored table. -/
structure CacheEntry where
  ageDays : ℕ
  table : Table

/-- `_is_cache_valid`: the entry must exist, caching must be enabled, and
the file age in days must be strictly below the validity window. -/
def is_cache_valid (entry : Option CacheEntry) (use_cache : Bool) (cache_days_valid : ℕ) : Bool :=
  match entry with
  | none => false
  | some e => use_cache && decide (e.ageDays < cache_days_valid)

/-- Result of `_load_source`: the table, how many times a provider adapter
was invoked, and the table written to the cache (if any). -/
structure LoadResult where
  table : Table
  adapterCalls : ℕ
  cacheWrite : Option Table
deriving DecidableEq

/-- `_load_source`: a valid cache entry is returned unchanged with no
provider call; otherwise dispatch on the provider tag (an unknown tag
returns empty immediately), then cache a non-empty result when caching is
enabled. -/
def load_source (sc : SourceConfig) (entry : Option CacheEntry) (use_cache : Bool)
    (cache_days_valid : ℕ) (fetch : FetchResult) : LoadResult :=
  if is_cache_valid entry use_cache cache_days_valid then
    { table := (entry.map (·.table)).getD [], adapterCalls := 0, cacheWrite := none }
  else if sc.provider = "yfinance" then
    let df := load_from_yfinance fetch
    { table := df, adapterCalls := 1,
      cacheWrite := if !df.isEmpty && use_cache then some df else none }
  else if sc.provider = "alphavantage" then
    let df := load_from_alphavantage fetch
    { table := df, adapterCalls := 1,
      cacheWrite := if !df.isEmpty && use_cache then some df else none }
  else if sc.provider = "ccxt" then
    let df := load_from_ccxt fetch
    { table := df, adapterCalls := 1,
      cacheWrite := if !df.isEmpty && use_cache then some df else none }
  else if sc.provider = "manual" then
    let df := load_manual_csv fetch
    { table := df, adapterCalls := 1,
      cacheWrite := if !df.isEmpty && use_cache then some df else none }
  else
    { table := [], adapterCalls := 0, cacheWrite := none }

/-- `load_data`: load every enabled regular source, keeping only non-empty
results; then the Google Trends path, which returns a valid cache entry
without an emptiness check, and otherwise keeps a fresh fetch only when
non-empty.  The cache state and the provider responses are passed in by
source name. -/
def load_data (sources : List SourceConfig) (google_trends_keywords : List String)
    (cache : String → Option CacheEntry) (use_cache : Bool) (cache_days_valid : ℕ)
    (fetch : String → FetchResult) : Bundle :=
  let regular := sources.filterMap (fun sc =>
    if !sc.enabled then none
    else
      let df := (load_source sc (cache sc.name) use_cache cache_days_valid (fetch sc.name)).table
      if df.isEmpty then none else some (sc.name, df))
  let trends :=
    if google_trends_keywords.isEmpty then []
    else if is_cache_valid (cache "GoogleTrends") use_cache cache_days_valid then
      [("GoogleTrends", ((cache "GoogleTrends").map (·.table)).getD [])]
    else
      let df := load_from_pytrends (fetch "GoogleTrends")
      if df.isEmpty then [] else [("GoogleTrends", df)]
  regular ++ trends

/-! ### Helper lemmas for `_apply_weights` -/

/-- Per-column contribution to the `weighted_sum` accumulator at row `i`. -/
def wContrib (w : List (String × ℚ)) (i : ℕ) (c : String × Col) : ℚ :=
  if 0 < wlookup w c.1 then
    match rowVal c.2 i with
    | some v => v * wlookup w c.1
    | none => 0
  else 0

/-- Per-column contribution to the `weights_used` accumulator at row `i`. -/
def uContrib (w : List (String × ℚ)) (i : ℕ) (c : String × Col) : ℚ :=
  if 0 < wlookup w c.1 then
    match rowVal c.2 i with
    | some _ => wlookup w c.1
    | none => 0
  else 0

/-- Spec-side numerator: the sum, over the features present on date `i`,
of value times weight (written from the spec's words, for comparison with
the code's accumulator). -/
def specRowNum (cols : Frame) (w : List (String × ℚ)) (i : ℕ) : ℚ :=
  (cols.filterMap (fun c => (rowVal c.2 i).map (fun v => v * wlookup w c.1))).sum

/-- Spec-side denominator: the sum of the weights of exactly the features
present on date `i`. -/
def specRowDen (cols : Frame) (w : List (String × ℚ)) (i : ℕ) : ℚ :=
  (cols.filterMap (fun c => (rowVal c.2 i).map (fun _ => wlookup w c.1))).sum

theorem rowWeightedSum_eq_sum (w : List (String × ℚ)) (i : ℕ) (cols : Frame) :
    rowWeightedSum cols w i = (cols.map (wContrib w i)).sum := by
  suffices h : ∀ (l : Frame) (a : ℚ),
      l.foldl (fun acc c =>
        if 0 < wlookup w c.1 then
          match rowVal c.2 i with
          | some v => acc + v * wlookup w c.1
          | none => acc
        else acc) a = a + (l.map (wContrib w i)).sum by
    simpa using h cols 0
  intro l
  induction l with
  | nil => intro a; simp
  | cons c cs ih =>
    intro a
    rw [List.foldl_cons, ih, List.map_cons, List.sum_cons]
    have hstep : (if 0 < wlookup w c.1 then
        match rowVal c.2 i with
        | some v => a + v * wlookup w c.1
        | none => a
      else a) = a + wContrib w i c := by
      unfold wContrib
      split
      · cases rowVal c.2 i <;> simp
      · simp
    rw [hstep]; ring

theorem rowWeightsUsed_eq_sum (w : List (String × ℚ)) (i : ℕ) (cols : Frame) :
    rowWeightsUsed cols w i = (cols.map (uContrib w i)).sum := by
  suffices h : ∀ (l : Frame) (a : ℚ),
      l.foldl (fun acc c =>
        if 0 < wlookup w c.1 then
          match rowVal c.2 i with
          | some _ => acc + wlookup w c.1
          | none => acc
        else acc) a = a + (l.map (uContrib w i)).sum by
    simpa using h cols 0
  intro l
  induction l with
  | nil => intro a; simp
  | cons c cs ih =>
    intro a
    rw [List.foldl_cons, ih, List.map_cons, List.sum_cons]
    have hstep : (if 0 < wlookup w c.1 then
        match rowVal c.2 i with
        | some _ => a + wlookup w c.1
        | none => a
      else a) = a + uContrib w i c := by
      unfold uContrib
      split
      · cases rowVal c.2 i <;> simp
      · simp
    rw [hstep]; ring

/-- Under nonnegative weights, the code's `weighted_sum` accumulator equals
the spec's sum over present features. -/
theorem wContrib_sum_eq_spec (w : List (String × ℚ)) (i : ℕ) (cols : Frame)
    (hw : ∀ c ∈ cols, 0 ≤ wlookup w c.1) :
    (cols.map (wContrib w i)).sum = specRowNum cols w i := by
  induction cols with
  | nil => simp [specRowNum]
  | cons c cs ih =>
    have hc := hw c (List.mem_cons_self c cs)
    have ihs := ih (fun c' hc' => hw c' (List.mem_cons_of_mem c hc'))
    unfold specRowNum at ihs ⊢
    cases hval : rowVal c.2 i with
    | none =>
      rw [List.map_cons, List.sum_cons, List.filterMap_cons]
      simp only [hval, Option.map_none']
      rw [ihs]
      have : wContrib w i c = 0 := by
        unfold wContrib
        split <;> simp [hval]
      rw [this]; ring
    | some v =>
      rw [List.map_cons, List.sum_cons, List.filterMap_cons]
      simp only [hval, Option.map_some']
      rw [List.sum_cons, ihs]
      have : wContrib w i c = v * wlookup w c.1 := by
        unfold wContrib
        split
        · simp [hval]
        · rename_i hneg
          have : wlookup w c.1 = 0 := le_antisymm (not_lt.mp hneg) hc
          simp [hval, this]
      rw [this]

/-- Under nonnegative weights, the code's `weights_used` accumulator equals
the spec's sum of the weights of the present features. -/
theorem uContrib_sum_eq_spec (w : List (String × ℚ)) (i : ℕ) (cols : Frame)
    (hw : ∀ c ∈ cols, 0 ≤ wlookup w c.1) :
    (cols.map (uContrib w i)).sum = specRowDen cols w i := by
  induction cols with
  | nil => simp [specRowDen]
  | cons c cs ih =>
    have hc := hw c (List.mem_cons_self c cs)
    have ihs := ih (fun c' hc' => hw c' (List.mem_cons_of_mem c hc'))
    unfold specRowDen at ihs ⊢
    cases hval : rowVal c.2 i with
    | none =>
      rw [List.map_cons, List.sum_cons, List.filterMap_cons]
      simp only [hval, Option.map_none']
      rw [ihs]
      have : uContrib w i c = 0 := by
        unfold uContrib
        split <;> simp [hval]
      rw [this]; ring
    | some v =>
      rw [List.map_cons, List.sum_cons, List.filterMap_cons]
      simp only [hval, Option.map_some']
      rw [List.sum_cons, ihs]
      have : uContrib w i c = wlookup w c.1 := by
        unfold uContrib
        split
        · simp [hval]
        · rename_i hneg
          have : wlookup w c.1 = 0 := le_antisymm (not_lt.mp hneg) hc
          simp [hval, this]
      rw [this]

/-- Each `weights_used` contribution is nonnegative. -/
theorem uContrib_nonneg (w : List (String × ℚ)) (i : ℕ) (c : String × Col) :
    0 ≤ uContrib w i c := by
  unfold uContrib
  split
  · rename_i hpos
    cases rowVal c.2 i <;> simp [le_of_lt hpos]
  · exact le_refl 0

/-- The value of `_apply_weights` at an in-range row. -/
theorem apply_weights_getD (cols : Frame) (w : List (String × ℚ)) (n i : ℕ) (hi : i < n) :
    (apply_weights cols w n).getD i none =
      (if rowWeightsUsed cols w i = 0 then none
       else some (rowWeightedSum cols w i / rowWeightsUsed cols w i)) := by
  unfold apply_weights
  rw [List.getD_eq_getElem?_getD, List.getElem?_map, List.getElem?_range hi]
  rfl

/-- C2: on every date on which at least one weighted feature is present,
the composite raw value produced by `_apply_weights` equals the sum over
present features of value times weight, divided by the sum of the weights
of exactly those present features (weights nonnegative, as the configured
fractions are); per-date reallocation of the missing features' weight is
immediate. -/
theorem apply_weights_reallocation (cols : Frame) (w : List (String × ℚ)) (n i : ℕ)
    (hi : i < n) (hw : ∀ c ∈ cols, 0 ≤ wlookup w c.1)
    (c0 : String × Col) (hc0 : c0 ∈ cols) (hval : rowVal c0.2 i ≠ none)
    (hpos : 0 < wlookup w c0.1) :
    (apply_weights cols w n).getD i none =
      some (specRowNum cols w i / specRowDen cols w i) := by
  have hden : 0 < rowWeightsUsed cols w i := by
    rw [rowWeightsUsed_eq_sum]
    have hmem : uContrib w i c0 ∈ cols.map (uContrib w i) := List.mem_map_of_mem _ hc0
    have hle : uContrib w i c0 ≤ (cols.map (uContrib w i)).sum := by
      refine List.single_le_sum (fun x hx => ?_) _ hmem
      obtain ⟨c, _, rfl⟩ := List.mem_map.mp hx
      exact uContrib_nonneg w i c
    have hc0pos : 0 < uContrib w i c0 := by
      unfold uContrib
      rw [if_pos hpos]
      cases hv : rowVal c0.2 i with
      | none => exact absurd hv hval
      | some v => simpa using hpos
    exact lt_of_lt_of_le hc0pos hle
  rw [apply_weights_getD cols w n i hi, if_neg (ne_of_gt hden),
    rowWeightedSum_eq_sum, rowWeightsUsed_eq_sum,
    wContrib_sum_eq_spec w i cols hw, uContrib_sum_eq_spec w i cols hw]

/-- C2 witness: with two features weighted 0.6 and 0.4 and the second
missing on the date, the composite equals the first feature's normalized
value exactly. -/
theorem apply_weights_reallocation_witness :
    (apply_weights [("A", [some 42]), ("B", [none])] [("A", 6/10), ("B", 4/10)] 1).getD 0 none
      = some 42 := by
  have h := apply_weights_reallocation [("A", [some 42]), ("B", [none])]
    [("A", 6/10), ("B", 4/10)] 1 0 (by decide)
    (by simp [wlookup, List.lookup]; norm_num)
    ("A", [some 42]) (by simp) (by simp [rowVal])
    (by simp [wlookup, List.lookup])
  rw [h]
  simp [specRowNum, specRowDen, rowVal, wlookup, List.lookup]

/-- C9: a date on which no positively weighted feature has a present value
yields a missing value from the weighted-aggregation step. -/
theorem apply_weights_zero_weight_nan (cols : Frame) (w : List (String × ℚ)) (n i : ℕ)
    (hi : i < n) (habs : ∀ c ∈ cols, 0 < wlookup w c.1 → rowVal c.2 i = none) :
    (apply_weights cols w n).getD i none = none := by
  have hzero : rowWeightsUsed cols w i = 0 := by
    rw [rowWeightsUsed_eq_sum]
    refine List.sum_eq_zero (fun x hx => ?_)
    obtain ⟨c, hc, rfl⟩ := List.mem_map.mp hx
    unfold uContrib
    split
    · rename_i hpos
      rw [habs c hc hpos]
    · rfl
  rw [apply_weights_getD cols w n i hi, if_pos hzero]

/-- C9 witness: one weighted feature, missing on the only date — the
aggregated value is missing, not zero. -/
theorem apply_weights_zero_weight_nan_witness :
    (apply_weights [("A", [none])] [("A", 6/10)] 1).getD 0 none = none :=
  apply_weights_zero_weight_nan [("A", [none])] [("A", 6/10)] 1 0 (by decide)
    (by simp [rowVal])

/-- C10: a column whose name maps to a nonpositive weight (in particular,
a name absent from the weight mapping, which looks up as 0) contributes to
neither accumulator: the composite is identical with or without the
column. -/
theorem apply_weights_ignores_unweighted (l1 l2 : Frame) (c : String × Col)
    (w : List (String × ℚ)) (n : ℕ) (hc : wlookup w c.1 ≤ 0) :
    apply_weights (l1 ++ c :: l2) w n = apply_weights (l1 ++ l2) w n := by
  unfold apply_weights
  refine List.map_congr_left (fun i _ => ?_)
  have hws : rowWeightedSum (l1 ++ c :: l2) w i = rowWeightedSum (l1 ++ l2) w i := by
    rw [rowWeightedSum_eq_sum, rowWeightedSum_eq_sum, List.map_append, List.map_append,
      List.map_cons, List.sum_append, List.sum_append, List.sum_cons]
    have : wContrib w i c = 0 := by
      unfold wContrib
      rw [if_neg (not_lt.mpr hc)]
    rw [this]; ring
  have hwu : rowWeightsUsed (l1 ++ c :: l2) w i = rowWeightsUsed (l1 ++ l2) w i := by
    rw [rowWeightsUsed_eq_sum, rowWeightsUsed_eq_sum, List.map_append, List.map_append,
      List.map_cons, List.sum_append, List.sum_append, List.sum_cons]
    have : uContrib w i c = 0 := by
      unfold uContrib
      rw [if_neg (not_lt.mpr hc)]
    rw [this]; ring
  rw [hws, hwu]

/-- C10 witness: a discovered feature column with no configured weight
(`example_double_price`) leaves the composite unchanged. -/
theorem apply_weights_ignores_unweighted_witness :
    apply_weights [("vix_level", [some 60]), ("example_double_price", [some 999])]
        ({} : IndexConfig).default_weights 1
      = apply_weights [("vix_level", [some 60])] ({} : IndexConfig).default_weights 1 := by
  have h := apply_weights_ignores_unweighted [("vix_level", [some 60])] []
    ("example_double_price", [some 999]) ({} : IndexConfig).default_weights 1
    (by simp [wlookup, List.lookup, IndexConfig.default_weights])
  simpa using h

/-! ### C5: the three-zone exposure rule -/

/-- C5: with thresholds low < high, exposure is 1.0 strictly below the low
threshold, 0.0 strictly above the high threshold, and the linear
interpolation `1 - (level - low)/(high - low)` in between; in particular
it is exactly 1.0 at the low threshold, 0.0 at the high threshold, and 0.5
at the midpoint. -/
theorem calculate_exposure_zones (config : BacktestConfig)
    (h : config.low_fear_threshold < config.high_fear_threshold) :
    (∀ l, l < config.low_fear_threshold → calculate_exposure config l = 1) ∧
    (∀ l, config.high_fear_threshold < l → calculate_exposure config l = 0) ∧
    (∀ l, config.low_fear_threshold ≤ l → l ≤ config.high_fear_threshold →
      calculate_exposure config l =
        1 - (l - config.low_fear_threshold) /
          (config.high_fear_threshold - config.low_fear_threshold)) ∧
    calculate_exposure config config.low_fear_threshold = 1 ∧
    calculate_exposure config config.high_fear_threshold = 0 ∧
    calculate_exposure config
      ((config.low_fear_threshold + config.high_fear_threshold) / 2) = 1/2 := by
  have hne : config.high_fear_threshold - config.low_fear_threshold ≠ 0 :=
    sub_ne_zero.mpr (ne_of_gt h)
  have hmid :
      ∀ l, config.low_fear_threshold ≤ l → l ≤ config.high_fear_threshold →
        calculate_exposure config l =
          1 - (l - config.low_fear_threshold) /
            (config.high_fear_threshold - config.low_fear_threshold) := by
    intro l hlo hhi
    unfold calculate_exposure
    rw [if_neg (not_lt.mpr hhi), if_neg (not_lt.mpr hlo)]
  refine ⟨?_, ?_, hmid, ?_, ?_, ?_⟩
  · intro l hl
    unfold calculate_exposure
    rw [if_neg (not_lt.mpr (le_of_lt (lt_trans hl h))), if_pos hl]
  · intro l hl
    unfold calculate_exposure
    rw [if_pos hl]
  · rw [hmid _ (le_refl _) (le_of_lt h)]
    simp
  · rw [hmid _ (le_of_lt h) (le_refl _), div_self hne]
    ring
  · have hlo : config.low_fear_threshold ≤
        (config.low_fear_threshold + config.high_fear_threshold) / 2 := by linarith
    have hhi : (config.low_fear_threshold + config.high_fear_threshold) / 2 ≤
        config.high_fear_threshold := by linarith
    rw [hmid _ hlo hhi]
    field_simp
    ring

/-- C5 witness: the default thresholds 30/70 give exposure 1 at 30, 0 at
70 and 1/2 at the midpoint 50. -/
theorem calculate_exposure_zones_witness :
    calculate_exposure {} 30 = 1 ∧ calculate_exposure {} 70 = 0 ∧
    calculate_exposure {} 50 = 1/2 := by
  have h := calculate_exposure_zones {} (by norm_num)
  refine ⟨h.2.2.2.1, h.2.2.2.2.1, ?_⟩
  have hm := h.2.2.2.2.2
  norm_num at hm
  exact hm

/-! ### C6: crash-day labeling and the degenerate zero score -/

/-- C6: in the merged sample, a day is labeled a crash day exactly when
its next-day return is strictly below the threshold, and with fewer than 2
crash days `_calculate_roc_auc` returns exactly 0.0 instead of a computed
score. -/
theorem calculate_roc_auc_labeling (fear_index next_day_return : List ℚ)
    (crash_threshold : ℚ) :
    (∀ p ∈ next_day_return.zip (next_day_return.map (crashLabel crash_threshold)),
      p.2 = true ↔ p.1 < crash_threshold) ∧
    (((next_day_return.map (crashLabel crash_threshold)).filter id).length < 2 →
      calculate_roc_auc fear_index next_day_return crash_threshold = 0) := by
  constructor
  · intro p hp
    induction next_day_return with
    | nil => simp at hp
    | cons r rs ih =>
      rw [List.map_cons, List.zip_cons_cons, List.mem_cons] at hp
      rcases hp with hp | hp
      · subst hp
        simp [crashLabel]
      · exact ih hp
  · intro hlt
    unfold calculate_roc_auc
    rw [if_pos hlt]

/-- C6 witness: one crash day out of two observations — the metric is the
degenerate 0, and the single sub-threshold day is the labeled one. -/
theorem calculate_roc_auc_labeling_witness :
    calculate_roc_auc [10, 20] [1/100, -3/100] (-2/100) = 0 := by
  have h := calculate_roc_auc_labeling [10, 20] [1/100, -3/100] (-2/100)
  refine h.2 ?_
  simp [crashLabel]
  norm_num

/-! ### C3: cache hits return the cached table with no provider call -/

/-- C3: with a cache entry present, caching enabled, and the entry's age
strictly below the validity window, `_load_source` returns the cached
table unchanged, invokes no provider adapter (the result does not even
depend on the provider's response), and leaves the cache unwritten — so a
re-run within the window returns the identical table again. -/
theorem load_source_cache_hit (sc : SourceConfig) (age : ℕ) (t : Table)
    (cache_days_valid : ℕ) (fetch : FetchResult) (h : age < cache_days_valid) :
    load_source sc (some ⟨age, t⟩) true cache_days_valid fetch =
      { table := t, adapterCalls := 0, cacheWrite := none } := by
  have hv : is_cache_valid (some ⟨age, t⟩) true cache_days_valid = true := by
    unfold is_cache_valid
    simp [h]
  unfold load_source
  rw [if_pos hv]
  rfl

/-- C3 witness: a one-day-valid cache entry of age 0 is returned as-is
even when the network would error. -/
theorem load_source_cache_hit_witness :
    load_source ⟨"XU100", "yfinance", "XU100.IS", true⟩ (some ⟨0, [(1, [5])]⟩) true 1
        FetchResult.netError =
      { table := [(1, [5])], adapterCalls := 0, cacheWrite := none } :=
  load_source_cache_hit ⟨"XU100", "yfinance", "XU100.IS", true⟩ 0 [(1, [5])] 1
    FetchResult.netError (by decide)

/-! ### C4: the composite index is always within [min_value, max_value] -/

theorem clipQ_bounds (lo hi : ℚ) (h : lo ≤ hi) (v : ℚ) :
    lo ≤ clipQ v lo hi ∧ clipQ v lo hi ≤ hi := by
  unfold clipQ
  exact ⟨le_min (le_max_right v lo) h, min_le_right _ _⟩

/-- C4: whenever min_value ≤ max_value, every non-missing value of the
composite index series returned by `calculate_fear_index` lies in
[min_value, max_value] — the final clip guarantees it for every input
frame. -/
theorem calculate_fear_index_in_range (feature_df : Frame) (n : ℕ) (config : IndexConfig)
    (h : config.min_value ≤ config.max_value) :
    ∀ x ∈ calculate_fear_index feature_df n config, ∀ v, x = some v →
      config.min_value ≤ v ∧ v ≤ config.max_value := by
  intro x hx v hv
  unfold calculate_fear_index at hx
  split at hx
  · simp at hx
  · dsimp only at hx
    split at hx
    · simp at hx
    · rw [clipSeries, List.mem_map] at hx
      obtain ⟨y, _, rfl⟩ := hx
      cases y with
      | none => simp at hv
      | some w =>
        rw [Option.map_some'] at hv
        rw [← Option.some_inj.mp hv]
        exact clipQ_bounds config.min_value config.max_value h w


/-- C4 witness: a single short feature column (normalized to the constant
50) flows through weighting, smoothing and the final clip to give the
in-range value 50 under the default configuration. -/
theorem calculate_fear_index_in_range_witness :
    ({} : IndexConfig).min_value ≤ 50 ∧ (50 : ℚ) ≤ ({} : IndexConfig).max_value := by
  have h := calculate_fear_index_in_range [("vix_level", [some 1])] 1 {}
    (by norm_num)
  refine h (some 50) ?_ 50 rfl
  have h1 : normalize_features [("vix_level", [some 1])] {} = [("vix_level", [some 50])] := by
    simp [normalize_features, stdIsZero, isAllNaN, validVals, normalize_zscore_minmax]
  have h2 : apply_weights [("vix_level", [some 50])] ({} : IndexConfig).default_weights 1
      = [some 50] := by
    simp [apply_weights, rowWeightedSum, rowWeightsUsed, wlookup, rowVal, List.lookup,
      List.range_succ]
  have h3 : apply_ema_smoothing [some 50] ({} : IndexConfig).ema_span = [some 50] := by
    simp [apply_ema_smoothing, emaRun, emaStep]
  have h4 : clipSeries [some 50] ({} : IndexConfig).min_value ({} : IndexConfig).max_value
      = [some 50] := by
    norm_num [clipSeries, clipQ]
  rw [calculate_fear_index, if_neg (by decide)]
  show some 50 ∈ (if (normalize_features [("vix_level", [some 1])] {}).isEmpty then ([] : Col)
    else clipSeries (apply_ema_smoothing (apply_weights
      (normalize_features [("vix_level", [some 1])] {}) ({} : IndexConfig).default_weights 1)
      ({} : IndexConfig).ema_span) ({} : IndexConfig).min_value ({} : IndexConfig).max_value)
  rw [h1, if_neg (by decide), h2, h3, h4]
  simp

/-! ### C7: feature-unit failure isolation -/

/-- C7: if one discovered unit fails (raises, returns a non-Series value,
or lacks `compute`), and no other unit shares its module name, then the
resulting Feature Matrix omits that unit's column while still containing
the column of every well-behaved unit that returned a non-empty series. -/
theorem compute_all_features_isolation (units : List FeatureUnit) (data : Bundle)
    (u : FeatureUnit) (hu : u ∈ units)
    (hfail : ∀ s, u.compute data ≠ FeatureOutcome.ok s)
    (hname : ∀ u' ∈ units, u'.name = u.name → u' = u) :
    u.name ∉ (compute_all_features units data).map Prod.fst ∧
    ∀ u' ∈ units, ∀ s, u'.compute data = FeatureOutcome.ok s → ¬s.isEmpty →
      (u'.name, s) ∈ compute_all_features units data := by
  have hne : ¬units.isEmpty := by
    cases units with
    | nil => exact absurd hu (List.not_mem_nil u)
    | cons a l => simp
  have hexec : execute_feature u data = none := by
    unfold execute_feature
    cases hc : u.compute data with
    | ok s => exact absurd hc (hfail s)
    | raises => rfl
    | nonSeries => rfl
    | noCompute => rfl
  constructor
  · intro hmem
    rw [compute_all_features, if_neg hne] at hmem
    rw [List.map_filterMap] at hmem
    obtain ⟨u', hu', hsome⟩ := List.mem_filterMap.mp hmem
    have hname' : u'.name = u.name := by
      cases hc : execute_feature u' data with
      | none => rw [hc] at hsome; simp at hsome
      | some s =>
        rw [hc] at hsome
        dsimp only at hsome
        by_cases hs : s.isEmpty
        · rw [if_pos hs] at hsome; simp at hsome
        · rw [if_neg hs] at hsome
          simpa using hsome
    have : u' = u := hname u' hu' hname'
    subst this
    rw [hexec] at hsome
    simp at hsome
  · intro u' hu' s hok hs
    rw [compute_all_features, if_neg hne]
    refine List.mem_filterMap.mpr ⟨u', hu', ?_⟩
    rw [show execute_feature u' data = some s from by unfold execute_feature; rw [hok]]
    dsimp only
    rw [if_neg hs]

/-- C7 witness: a raising unit is absent from the output, a well-behaved
one is present. -/
theorem compute_all_features_isolation_witness :
    "bad" ∉ (compute_all_features
        [⟨"good", fun _ => FeatureOutcome.ok [(0, 5)]⟩, ⟨"bad", fun _ => FeatureOutcome.raises⟩]
        []).map Prod.fst ∧
    ("good", [((0 : ℕ), (5 : ℚ))]) ∈ compute_all_features
        [⟨"good", fun _ => FeatureOutcome.ok [(0, 5)]⟩, ⟨"bad", fun _ => FeatureOutcome.raises⟩]
        [] := by
  have h := compute_all_features_isolation
    [⟨"good", fun _ => FeatureOutcome.ok [(0, 5)]⟩, ⟨"bad", fun _ => FeatureOutcome.raises⟩]
    [] ⟨"bad", fun _ => FeatureOutcome.raises⟩
    (by simp)
    (by intro s hs; simp at hs)
    (by
      intro u' hu' hn
      rcases List.mem_cons.mp hu' with h1 | h1
      · rw [h1] at hn; simp at hn
      · simpa using h1)
  refine ⟨h.1, h.2 ⟨"good", fun _ => FeatureOutcome.ok [(0, 5)]⟩ (by simp) [(0, 5)] rfl
    (by simp)⟩

/-! ### C8: adapter failures downgrade to empty; bundle keys are exactly
the non-empty sources -/

theorem is_cache_valid_some (entry : Option CacheEntry) (uc : Bool) (vd : ℕ)
    (h : is_cache_valid entry uc vd = true) : ∃ e, entry = some e := by
  cases entry with
  | none => simp [is_cache_valid] at h
  | some e => exact ⟨e, rfl⟩

theorem ne_nil_not_isEmpty {α : Type} {l : List α} (h : l ≠ []) : ¬(l.isEmpty = true) := by
  simpa [List.isEmpty_iff] using h

/-- C8: every adapter failure outcome (network error, malformed response,
missing credential, missing file) yields an empty table; an unknown
provider tag yields an empty table with no adapter invocation; every table
in the Dataset Bundle is non-empty; and an enabled source's key is present
in the bundle exactly when its load produced a non-empty table. -/
theorem load_data_failure_semantics (sources : List SourceConfig)
    (google_trends_keywords : List String) (cache : String → Option CacheEntry)
    (use_cache : Bool) (cache_days_valid : ℕ) (fetch : String → FetchResult)
    (hnodup : (sources.map (fun sc => sc.name)).Nodup)
    (hgt : "GoogleTrends" ∉ sources.map (fun sc => sc.name))
    (hcache : ∀ nm e, cache nm = some e → e.table ≠ []) :
    (∀ r : FetchResult, r.isFailure = true →
      load_from_yfinance r = [] ∧ load_from_alphavantage r = [] ∧
      load_from_ccxt r = [] ∧ load_manual_csv r = [] ∧ load_from_pytrends r = []) ∧
    (∀ sc : SourceConfig, sc.provider ≠ "yfinance" → sc.provider ≠ "alphavantage" →
      sc.provider ≠ "ccxt" → sc.provider ≠ "manual" →
      ¬(is_cache_valid (cache sc.name) use_cache cache_days_valid = true) →
      load_source sc (cache sc.name) use_cache cache_days_valid (fetch sc.name) =
        { table := [], adapterCalls := 0, cacheWrite := none }) ∧
    (∀ p ∈ load_data sources google_trends_keywords cache use_cache cache_days_valid fetch,
      p.2 ≠ []) ∧
    (∀ sc ∈ sources, sc.enabled = true →
      (sc.name ∈ (load_data sources google_trends_keywords cache use_cache
          cache_days_valid fetch).map Prod.fst ↔
        (load_source sc (cache sc.name) use_cache cache_days_valid
          (fetch sc.name)).table ≠ [])) := by
  refine ⟨?_, ?_, ?_, ?_⟩
  · intro r hr
    cases r with
    | ok t => simp [FetchResult.isFailure] at hr
    | netError => exact ⟨rfl, rfl, rfl, rfl, rfl⟩
    | malformed => exact ⟨rfl, rfl, rfl, rfl, rfl⟩
    | noCredential => exact ⟨rfl, rfl, rfl, rfl, rfl⟩
    | noFile => exact ⟨rfl, rfl, rfl, rfl, rfl⟩
  · intro sc h1 h2 h3 h4 hcv
    unfold load_source
    rw [if_neg hcv, if_neg h1, if_neg h2, if_neg h3, if_neg h4]
  · intro p hp
    unfold load_data at hp
    rw [List.mem_append] at hp
    rcases hp with hp | hp
    · obtain ⟨sc, _, hsome⟩ := List.mem_filterMap.mp hp
      by_cases he : (!sc.enabled) = true
      · rw [if_pos he] at hsome; simp at hsome
      · rw [if_neg he] at hsome
        dsimp only at hsome
        by_cases hd : (load_source sc (cache sc.name) use_cache cache_days_valid
            (fetch sc.name)).table.isEmpty = true
        · rw [if_pos hd] at hsome; simp at hsome
        · rw [if_neg hd] at hsome
          obtain rfl := Option.some_inj.mp hsome
          exact fun hnil => hd (by simpa using hnil)
    · split at hp
      · simp at hp
      · split at hp
        · rename_i hcv
          obtain ⟨e, he⟩ := is_cache_valid_some _ _ _ hcv
          rw [List.mem_singleton] at hp
          subst hp
          simpa [he] using hcache "GoogleTrends" e he
        · dsimp only at hp
          split at hp
          · simp at hp
          · rename_i hdf
            rw [List.mem_singleton] at hp
            subst hp
            exact fun hnil => hdf (by simpa using hnil)
  · intro sc hsc hen
    constructor
    · intro hmem
      unfold load_data at hmem
      rw [List.map_append, List.mem_append] at hmem
      rcases hmem with hm | hm
      · obtain ⟨p, hp, hpn⟩ := List.mem_map.mp hm
        obtain ⟨sc', hsc', hsome⟩ := List.mem_filterMap.mp hp
        by_cases he : (!sc'.enabled) = true
        · rw [if_pos he] at hsome; simp at hsome
        · rw [if_neg he] at hsome
          dsimp only at hsome
          by_cases hd : (load_source sc' (cache sc'.name) use_cache cache_days_valid
              (fetch sc'.name)).table.isEmpty = true
          · rw [if_pos hd] at hsome; simp at hsome
          · rw [if_neg hd] at hsome
            obtain rfl := Option.some_inj.mp hsome
            have hnn : sc'.name = sc.name := hpn
            have heq : sc' = sc := List.inj_on_of_nodup_map hnodup hsc' hsc hnn
            subst heq
            exact fun hnil => hd (by simpa using hnil)
      · exfalso
        apply hgt
        have hname : sc.name = "GoogleTrends" := by
          split at hm
          · simp at hm
          · split at hm
            · simpa using hm
            · dsimp only at hm
              split at hm
              · simp at hm
              · simpa using hm
        rw [← hname]
        exact List.mem_map_of_mem _ hsc
    · intro hne
      unfold load_data
      rw [List.map_append, List.mem_append]
      left
      refine List.mem_map.mpr
        ⟨(sc.name, (load_source sc (cache sc.name) use_cache cache_days_valid
          (fetch sc.name)).table), ?_, rfl⟩
      refine List.mem_filterMap.mpr ⟨sc, hsc, ?_⟩
      rw [if_neg (by simp [hen])]
      dsimp only
      rw [if_neg (ne_nil_not_isEmpty hne)]

/-- C8 witness: one enabled yfinance source whose fetch succeeds with a
non-empty table is keyed in the bundle; the failure conjuncts instantiate
at a network error. -/
theorem load_data_failure_semantics_witness :
    load_from_yfinance FetchResult.netError = [] ∧
    ("XU100" ∈ (load_data [⟨"XU100", "yfinance", "XU100.IS", true⟩] []
        (fun _ => none) true 1 (fun _ => FetchResult.ok [(1, [5])])).map Prod.fst) := by
  have h := load_data_failure_semantics [⟨"XU100", "yfinance", "XU100.IS", true⟩] []
    (fun _ => none) true 1 (fun _ => FetchResult.ok [(1, [5])])
    (by decide) (by decide) (fun nm e he => by cases he)
  refine ⟨(h.1 FetchResult.netError rfl).1, ?_⟩
  refine (h.2.2.2 ⟨"XU100", "yfinance", "XU100.IS", true⟩ (by decide) rfl).mpr ?_
  decide

/-! ### C1: which columns does normalization exclude? -/

/-- C1 counterexample: a column with only 2 valid observations (fewer
than 10) and nonzero variance is NOT excluded — `_normalize_features`
keeps it and `_normalize_zscore_minmax` fills it with the constant 50.0,
so the normalized output does contain derived values for it. -/
theorem normalize_features_keeps_short_column :
    (validVals [some 1, some 2]).length < 10 ∧
    normalize_features [("realized_vol", [some 1, some 2])] {} =
      [("realized_vol", [some 50, some 50])] := by
  constructor
  · decide
  · have hstd : stdIsZero [some 1, some 2] = false := by
      simp [stdIsZero, validVals, ssd, meanQ]
      norm_num
    simp [normalize_features, hstd, isAllNaN, validVals, normalize_zscore_minmax]

/-- C1 amended: `_normalize_features` excludes exactly the zero-variance
(sample std 0) and entirely-missing columns; a retained column with fewer
than 10 valid observations is not excluded but is mapped to the constant
value 50.0 on every date of the index. -/
theorem normalize_features_exclusion (df : Frame) (config : IndexConfig) :
    (normalize_features df config).map Prod.fst =
      (df.filter (fun c => !(stdIsZero c.2 || isAllNaN c.2))).map Prod.fst ∧
    ∀ c ∈ df, (stdIsZero c.2 || isAllNaN c.2) = false → (validVals c.2).length < 10 →
      (c.1, c.2.map (fun _ => some (50 : ℚ))) ∈ normalize_features df config := by
  constructor
  · induction df with
    | nil => rfl
    | cons c cs ih =>
      rw [normalize_features, List.filterMap_cons]
      by_cases hc : (stdIsZero c.2 || isAllNaN c.2) = true
      · rw [if_pos hc, List.filter_cons_of_neg (by simp [hc])]
        simpa [normalize_features] using ih
      · have hX : (stdIsZero c.2 || isAllNaN c.2) = false := Bool.eq_false_iff.mpr hc
        rw [if_neg hc, List.filter_cons_of_pos (by rw [hX]; rfl)]
        rw [List.map_cons, List.map_cons]
        rw [normalize_features] at ih
        rw [ih]
  · intro c hc hskip hlen
    refine List.mem_filterMap.mpr ⟨c, hc, ?_⟩
    rw [if_neg (by rw [hskip]; exact Bool.false_ne_true)]
    rw [normalize_zscore_minmax]
    rw [if_pos hlen]

/-- C1 amended witness: with one short-but-varying column and one all-NaN
column, the output has exactly the first column, filled with 50s. -/
theorem normalize_features_exclusion_witness :
    ("realized_vol", [some (50 : ℚ), some 50, some 50]) ∈
      normalize_features
        [("realized_vol", [some 1, some 2, none]), ("cds_spike", [none, none, none])] {} ∧
    (normalize_features
        [("realized_vol", [some 1, some 2, none]), ("cds_spike", [none, none, none])]
        {}).map Prod.fst = ["realized_vol"] := by
  have h := normalize_features_exclusion
    [("realized_vol", [some 1, some 2, none]), ("cds_spike", [none, none, none])] {}
  have hrv : (stdIsZero [some 1, some 2, none] || isAllNaN [some 1, some 2, none]) = false := by
    simp [stdIsZero, isAllNaN, validVals, ssd, meanQ]
    norm_num
  constructor
  · exact h.2 ("realized_vol", [some 1, some 2, none]) (by simp) hrv (by decide)
  · rw [h.1, List.filter_cons, List.filter_cons]
    rw [show (!(stdIsZero [some 1, some 2, none] || isAllNaN [some 1, some 2, none]))
      = true by rw [hrv]; rfl]
    simp [isAllNaN, validVals]

end Bifx
